import Mathlib

set_option maxRecDepth 100000

/-!
Shallow embedding of `src/lib/index.mjs` (the mlly module-resolution and
import-rewriting library).

External host primitives -- `moduleResolve` from the `import-meta-resolve`
package, `fs.realpathSync`, `url.fileURLToPath` / `url.pathToFileURL`, and
`process.cwd()` -- are modelled as an explicit record of oracles (`Host`).
Everything defined in `src/lib/index.mjs` itself is translated directly:
the protocol test, the builtin check, the soft-miss classification, the
extension/index fallback loops, the canonicalization pipeline, the regex
based import extraction and the global alternation substitution, and the
`url`/`from` defaulting (including its in-place mutation of the caller's
options object, which we expose as `transformModulePost`).

JavaScript errors are modelled as records of `name`, `message` and the Node
`code` property; thrown errors / rejected promises are `Except.error`.
-/

namespace Mlly

/-- A JavaScript `Error` as observed by this module: its `name` (defaults to
"Error"), its `message`, and the Node.js `code` property consulted by
`_tryModuleResolve` and copied by `_perr`. -/
structure Err where
  name : String := "Error"
  message : String
  code : String
  deriving DecidableEq

/-- The caller-supplied options record (the spec's ResolutionContext).
`from` is a Lean keyword, so the field is `from'`.  `none` models an absent
(`undefined`) field. -/
structure Opts where
  from' : Option String := none
  url : Option String := none
  conditions : Option (List String) := none
  extensions : Option (List String) := none
  deriving DecidableEq

/-- The external host primitives used by `src/lib/index.mjs`:
`moduleResolve(id, from, conditions)` from `import-meta-resolve` (returning a
URL, or throwing), `url.fileURLToPath` on URL values (the external function,
not the exported wrapper below), `fs.realpathSync` (which can throw),
`url.pathToFileURL(..).toString()`, and
`DEFAULT_FROM = pathToFileURL(process.cwd())`.  `conditions` is passed as the
list the caller supplied; the source wraps it in a `Set`, which only affects
membership semantics inside the opaque resolver. -/
structure Host where
  moduleResolve : String → String → List String → Except Err String
  fileURLToPathFn : String → String
  realpathSyncFn : String → Except Err String
  pathToFileURLFn : String → String
  defaultFrom : String

/-- JavaScript truthiness of an optional string option: absent (`undefined`)
and the empty string are falsy. -/
def truthy : Option String → Bool
  | none => false
  | some s => !(s == "")

/-- `normalizeSlash(str)`: `str.replace(/\\/g, '/')`. -/
def normalizeSlash (s : String) : String :=
  String.mk (s.data.map fun c => if c = '\\' then '/' else c)

/-- Does `pat` occur as a contiguous run inside the list? (Helper for the
unanchored regex tests used by the source.) -/
def listHas (pat : List Char) : List Char → Bool
  | [] => pat.isEmpty
  | c :: t => pat.isPrefixOf (c :: t) || listHas pat t

/-- Does `pat` occur as a contiguous substring of `s`? -/
def strHas (s pat : String) : Bool := listHas pat.data s.data

/-- The test `/(node|data|http|https):/.test(id)` from `_resolve`: the regex
is unanchored, so it holds exactly when one of the literal strings "node:",
"data:", "http:", "https:" occurs anywhere in `id`.  Note that `file:` is NOT
in this alternation. -/
def hasProtocol (id : String) : Bool :=
  strHas id "node:" || strHas id "data:" || strHas id "http:" || strHas id "https:"

/-- The test `/(node|data|http|https|file):/.test(id)` from `normalizeid`,
which, unlike `_resolve`'s test, does include `file:`. -/
def hasProtocolOrFile (id : String) : Bool :=
  hasProtocol id || strHas id "file:"

/-- Modelled from the host environment: Node's `module.builtinModules`
(`BUILُTIN_MODULES = new Set(builtinModules)` in the source).  A
representative list of the public builtin module names of the Node versions
this code targets; membership is all the source uses. -/
def BUILTIN_MODULES : List String :=
  ["assert", "async_hooks", "buffer", "child_process", "cluster", "console",
   "constants", "crypto", "dgram", "diagnostics_channel", "dns", "domain",
   "events", "fs", "http", "http2", "https", "inspector", "module", "net",
   "os", "path", "perf_hooks", "process", "punycode", "querystring",
   "readline", "repl", "stream", "string_decoder", "sys", "timers", "tls",
   "trace_events", "tty", "url", "util", "v8", "vm", "wasi",
   "worker_threads", "zlib"]

/-- `DEFAULT_CONDITIONS_SET = new Set(['node', 'import'])` (membership only,
so a list suffices). -/
def DEFAULT_CONDITIONS_SET : List String := ["node", "import"]

/-- `DEFAULT_EXTENSIONS = ['.mjs', '.cjs', '.js', '.json']`. -/
def DEFAULT_EXTENSIONS : List String := [".mjs", ".cjs", ".js", ".json"]

/-- `NOT_FOUND_ERRORS = new Set(['ERR_MODULE_NOT_FOUND',
'ERR_UNSUPPORTED_DIR_IMPORT', 'MODULE_NOT_FOUND'])`. -/
def NOT_FOUND_ERRORS : List String :=
  ["ERR_MODULE_NOT_FOUND", "ERR_UNSUPPORTED_DIR_IMPORT", "MODULE_NOT_FOUND"]

/-- `normalizeid(id)` for string inputs (the `typeof` branch coercing
non-strings is outside the string model). -/
def normalizeid (id : String) : String :=
  if hasProtocolOrFile id then id
  else if id ∈ BUILTIN_MODULES then "node:" ++ id
  else "file://" ++ normalizeSlash id

/-- The exported `fileURLToPath(id)` wrapper: strings not starting with
`file://` are only slash-normalized; otherwise the external
`url.fileURLToPath` is applied and the result slash-normalized.  (Inside
`_resolve` the argument is the URL object returned by `moduleResolve`, for
which JavaScript always takes the external branch; URL values are modelled by
their string form, which for the `file:` URLs produced there takes the same
branch.) -/
def fileURLToPath (h : Host) (id : String) : String :=
  if !("file://".data.isPrefixOf id.data) then normalizeSlash id
  else normalizeSlash (h.fileURLToPathFn id)

/-- `_tryModuleResolve(id, from, conditions)`: absorb a thrown error whose
`code` is one of `NOT_FOUND_ERRORS` into `null` (a soft miss); rethrow any
other error; return the resolved URL otherwise. -/
def _tryModuleResolve (h : Host) (id fr : String) (conds : List String) :
    Except Err (Option String) :=
  match h.moduleResolve id fr conds with
  | .ok r => .ok (some r)
  | .error e => if e.code ∈ NOT_FOUND_ERRORS then .ok none else .error e

/-- `opts.conditions ? new Set(opts.conditions) : DEFAULT_CONDITIONS_SET`
(arrays are always truthy, so only presence matters). -/
def effectiveConds (opts : Opts) : List String :=
  match opts.conditions with
  | some c => c
  | none => DEFAULT_CONDITIONS_SET

/-- `opts.from ? normalizeid(opts.from) : DEFAULT_FROM` (string truthiness:
an empty `from` also falls back to the default). -/
def effectiveFrom (h : Host) (opts : Opts) : String :=
  if truthy opts.from' then normalizeid (opts.from'.getD "") else h.defaultFrom

/-- `opts.extensions || DEFAULT_EXTENSIONS` (an array is truthy even when
empty, so only an absent field falls back to the default). -/
def effectiveExts (opts : Opts) : List String :=
  match opts.extensions with
  | some e => e
  | none => DEFAULT_EXTENSIONS

/-- The inner fallback loop of `_resolve`: for one suffix part `pfx` try
`id + pfx + ext` for each configured extension in order, stopping at the
first success (`break`); a hard error from `_tryModuleResolve` propagates. -/
def tryExtList (h : Host) (id fr : String) (conds : List String) (pfx : String) :
    List String → Except Err (Option String)
  | [] => .ok none
  | ext :: rest =>
    match _tryModuleResolve h (id ++ pfx ++ ext) fr conds with
    | .error e => .error e
    | .ok (some r) => .ok (some r)
    | .ok none => tryExtList h id fr conds pfx rest

/-- The outer fallback loop of `_resolve`: iterate the suffix parts
(`['', '/index']` at the call site), stopping at the first success. -/
def tryPrefixList (h : Host) (id fr : String) (conds exts : List String) :
    List String → Except Err (Option String)
  | [] => .ok none
  | pfx :: rest =>
    match tryExtList h id fr conds pfx exts with
    | .error e => .error e
    | .ok (some r) => .ok (some r)
    | .ok none => tryPrefixList h id fr conds exts rest

/-- The canonicalization tail of `_resolve`:
`pathToFileURL(realpathSync(fileURLToPath(resolved))).toString()`. -/
def finalize (h : Host) (resolved : String) : Except Err String :=
  match h.realpathSyncFn (fileURLToPath h resolved) with
  | .error e => .error e
  | .ok realPath => .ok (h.pathToFileURLFn realPath)

/-- `_resolve(id, opts)`: protocol pass-through, builtin short-circuit,
literal attempt, extension/index fallback loops, `ERR_MODULE_NOT_FOUND` on
exhaustion, canonicalization on success. -/
def _resolve (h : Host) (id : String) (opts : Opts) : Except Err String :=
  if hasProtocol id then .ok id
  else if id ∈ BUILTIN_MODULES then .ok ("node:" ++ id)
  else
    match _tryModuleResolve h id (effectiveFrom h opts) (effectiveConds opts) with
    | .error e => .error e
    | .ok (some r) => finalize h r
    | .ok none =>
      match tryPrefixList h id (effectiveFrom h opts) (effectiveConds opts)
          (effectiveExts opts) ["", "/index"] with
      | .error e => .error e
      | .ok (some r) => finalize h r
      | .ok none =>
        .error { message := "Cannot find module " ++ id ++ " imported from "
                              ++ effectiveFrom h opts
               , code := "ERR_MODULE_NOT_FOUND" }

/-- `resolveSync(id, opts)`. -/
def resolveSync (h : Host) (id : String) (opts : Opts) : Except Err String :=
  _resolve h id opts

/-- `String(err)` for an Error value, as used by `new Error(_err)` inside
`_perr`: `name + ": " + message`, degenerating when either part is empty. -/
def errToString (e : Err) : String :=
  if e.name == "" then e.message
  else if e.message == "" then e.name
  else e.name ++ ": " ++ e.message

/-- `_perr(_err)`: wrap the original error in a fresh `Error` whose message
is the string form of the original, copying the `code` property (the stack
manipulation has no observable counterpart here). -/
def _perr (e : Err) : Err :=
  { name := "Error", message := errToString e, code := e.code }

/-- `resolve(id, opts) = _pcall(resolveSync, id, opts)`: same result on
success, `_perr`-wrapped rejection on failure. -/
def resolve (h : Host) (id : String) (opts : Opts) : Except Err String :=
  match resolveSync h id opts with
  | .ok v => .ok v
  | .error e => .error (_perr e)

/-- `resolvePathSync(id, opts) = fileURLToPath(resolveSync(id, opts))`. -/
def resolvePathSync (h : Host) (id : String) (opts : Opts) : Except Err String :=
  match resolveSync h id opts with
  | .ok v => .ok (fileURLToPath h v)
  | .error e => .error e

/-- `resolvePath(id, opts) = _pcall(resolvePathSync, id, opts)`. -/
def resolvePath (h : Host) (id : String) (opts : Opts) : Except Err String :=
  match resolvePathSync h id opts with
  | .ok v => .ok v
  | .error e => .error (_perr e)

/-! ### Import extraction (`ESM_IMPORT_RE`)

The source scans the whole text once with

`/(?<=import .* from ['"])([^'"]+)(?=['"])|(?<=export .* from ['"])([^'"]+)(?=['"])|(?<=import\s*['"])([^'"]+)(?=['"])|(?<=import\s*\(['"])([^'"]+)(?=['"]\))/g`

and takes `m[0]` of every match.  The scanner below implements exactly these
four alternatives.  Lookbehinds are checked on the reversed text to the left
of the current position; the captured text of every alternative is the same
maximal nonempty run of non-quote characters, so a position matches iff one
of the lookbehind/lookahead combinations holds.  For the whitespace class we
use the common ASCII members of JavaScript `\s`, and for `.` everything but
`\n` and `\r` (the exotic Unicode members change nothing below). -/

/-- A quote character, i.e. the class `['"]`.  (39 is the single quote.) -/
def isQuoteChar (c : Char) : Bool := c == '"' || c.toNat == 39

/-- JavaScript `\s` (ASCII part). -/
def isWsChar (c : Char) : Bool :=
  c == ' ' || c == '\t' || c == '\n' || c == '\r' ||
  c == Char.ofNat 11 || c == Char.ofNat 12

/-- JavaScript `.` without the `s` flag: any character but a line
terminator. -/
def isDotChar (c : Char) : Bool := !(c == '\n' || c == '\r')

/-- Walking backwards over a `.*` span: does some suffix of the (reversed)
left context consist of dot-class characters followed by the reversed word
`revWord`? -/
def searchDotStar (revWord : List Char) : List Char → Bool
  | [] => false
  | c :: t => revWord.isPrefixOf (c :: t) || (isDotChar c && searchDotStar revWord t)

/-- Lookbehind `(?<=WORD .* from ['"])` checked on the reversed left context:
a quote, then `" from "` reversed, then a dot-run reaching back to the
reversed `"WORD "`. -/
def lookbehindFromClause (revWordSp : List Char) (leftRev : List Char) : Bool :=
  match leftRev with
  | q :: rest =>
    isQuoteChar q && (" from ".data.reverse.isPrefixOf rest) &&
      searchDotStar revWordSp (rest.drop 6)
  | [] => false

/-- Lookbehind `(?<=import\s*['"])` on the reversed left context: a quote,
an (automatically maximal) whitespace run, then `"import"` reversed. -/
def lookbehindBareImport (leftRev : List Char) : Bool :=
  match leftRev with
  | q :: rest =>
    isQuoteChar q && ("import".data.reverse.isPrefixOf (rest.dropWhile isWsChar))
  | [] => false

/-- Lookbehind `(?<=import\s*\(['"])` on the reversed left context: a quote,
an opening parenthesis, a whitespace run, then `"import"` reversed. -/
def lookbehindDynamicImport (leftRev : List Char) : Bool :=
  match leftRev with
  | q :: p :: rest =>
    isQuoteChar q && p == '(' &&
      ("import".data.reverse.isPrefixOf (rest.dropWhile isWsChar))
  | _ => false

/-- One attempt of `ESM_IMPORT_RE` at the current position: the capture
`[^'"]+` is the maximal nonempty run of non-quote characters; alternatives
1-3 need a following quote (which maximality guarantees whenever any
character follows), alternative 4 needs the quote to be followed by `)`. -/
def matchAt (leftRev right : List Char) : Option (List Char) :=
  let run := right.takeWhile (fun c => !isQuoteChar c)
  if run.isEmpty then none
  else
    let rest := right.drop run.length
    let hasCloseQuote := !rest.isEmpty
    let hasCloseQuoteParen :=
      match rest with
      | q :: c :: _ => isQuoteChar q && c == ')'
      | _ => false
    if (hasCloseQuote &&
          (lookbehindFromClause ("import ".data.reverse) leftRev ||
           lookbehindFromClause ("export ".data.reverse) leftRev ||
           lookbehindBareImport leftRev)) ||
       (hasCloseQuoteParen && lookbehindDynamicImport leftRev)
    then some run else none

/-- The `matchAll` scan: find the leftmost match at or after the current
position, record `m[0]`, and continue after it (the regex is global and every
match is nonempty).  `fuel` is the length of the remaining text, which the
scan never exceeds since every step consumes at least one character. -/
def scanImportsAux : Nat → List Char → List Char → List String
  | 0, _, _ => []
  | _, _, [] => []
  | fuel + 1, leftRev, c :: t =>
    match matchAt leftRev (c :: t) with
    | some run =>
      String.mk run ::
        scanImportsAux fuel (run.reverse ++ leftRev) ((c :: t).drop run.length)
    | none => scanImportsAux fuel (c :: leftRev) t

/-- `Array.from(code.matchAll(ESM_IMPORT_RE)).map(m => m[0])`. -/
def extractImports (code : String) : List String :=
  scanImportsAux code.data.length [] code.data

/-- `new Set(imports)` insertion loop: keep the first occurrence of each
element, in order. -/
def dedupAux (seen : List String) : List String → List String
  | [] => []
  | x :: xs => if x ∈ seen then dedupAux seen xs else x :: dedupAux (x :: seen) xs

/-- `Array.from(new Set(imports))`: distinct elements in first-occurrence
order. -/
def dedupFirst (l : List String) : List String := dedupAux [] l

/-! ### The substitution step of `resolveImports`

`new RegExp(uniqueImports.map(i => '(' + i + ')').join('|'), 'g')` embeds the
raw specifier strings into one alternation and `code.replace(re, id =>
resolved.get(id))` rewrites every match.  We model the alternation for
specifier strings that contain no regex metacharacters, for which each
alternative matches exactly its own literal text; JavaScript alternation is
leftmost-first, i.e. at each position the first alternative in pattern order
that matches wins, and a callback returning `undefined` substitutes the
string "undefined". -/

/-- First alternative (in pattern order) whose literal text starts at the
current position.  Extracted specifiers are nonempty (`[^'"]+`), and the
guard keeps empty patterns from matching. -/
def firstAlt : List String → List Char → Option (List Char)
  | [], _ => none
  | p :: rest, l =>
    if !p.data.isEmpty && p.data.isPrefixOf l then some p.data else firstAlt rest l

/-- The global-replace scan: at each position substitute the first matching
alternative via `get` and continue after the matched text (the replacement is
not rescanned), otherwise keep the character.  `fuel` is the length of the
remaining text. -/
def replaceScanAux (pats : List String) (get : String → String) :
    Nat → List Char → List Char
  | 0, l => l
  | _, [] => []
  | fuel + 1, c :: t =>
    match firstAlt pats (c :: t) with
    | some pd =>
      (get (String.mk pd)).data ++ replaceScanAux pats get fuel ((c :: t).drop pd.length)
    | none => c :: replaceScanAux pats get fuel t

/-- `s.replace(re, get)` for the global alternation of the literal patterns
`pats`. -/
def replaceAll (pats : List String) (get : String → String) (s : String) : String :=
  String.mk (replaceScanAux pats get s.data.length s.data)

/-- `resolved.get(..)` on the association list built by the resolution
step. -/
def lookupStr (m : List (String × String)) (k : String) : Option String :=
  match m with
  | [] => none
  | (k', v) :: rest => if k' = k then some v else lookupStr rest k

/-- The `Promise.all(uniqueImports.map(async id => resolved.set(id, await
resolve(id, resolveOpts))))` step, sequentialized in list order: the map from
each distinct specifier to its resolved URL, or the first rejection. -/
def resolveAll (h : Host) (ropts : Opts) :
    List String → Except Err (List (String × String))
  | [] => .ok []
  | id :: rest =>
    match resolve h id ropts with
    | .error e => .error e
    | .ok u =>
      match resolveAll h ropts rest with
      | .error e => .error e
      | .ok l => .ok ((id, u) :: l)

/-- The body of `resolveImports` after `resolveOpts` has been formed: return
the code unchanged when no import was extracted; otherwise resolve every
distinct specifier and substitute via the global alternation (a lookup miss
substitutes "undefined", as a replace callback returning `undefined`
does). -/
def resolveImportsWith (h : Host) (code : String) (ropts : Opts) : Except Err String :=
  if (extractImports code).isEmpty then .ok code
  else
    match resolveAll h ropts (dedupFirst (extractImports code)) with
    | .error e => .error e
    | .ok resolved =>
      .ok (replaceAll (dedupFirst (extractImports code))
            (fun m =>
              match lookupStr resolved m with
              | some u => u
              | none => "undefined")
            code)

/-- `resolveImports(code, opts)`: the resolution context is
`{ ...opts, from: opts.url }`, i.e. `from` is overridden by `url` (even when
`url` is absent). -/
def resolveImports (h : Host) (code : String) (opts : Opts) : Except Err String :=
  resolveImportsWith h code { opts with from' := opts.url }

/-- The `url`/`from` defaulting at the top of `transformModule`, which the
source performs by assigning into the caller's `opts` object:
`if (!opts.url && opts.from) opts.url = opts.from; else if (opts.url &&
!opts.from) opts.from = opts.url`. -/
def defaultUrlFrom (opts : Opts) : Opts :=
  if !truthy opts.url && truthy opts.from' then { opts with url := opts.from' }
  else if truthy opts.url && !truthy opts.from' then { opts with from' := opts.url }
  else opts

/-- A single-quote character as a string (the replacement template in
`transformModule` wraps the URL in single quotes). -/
def singleQuote : String := String.mk [Char.ofNat 39]

/-- `code.replace(/import\.meta\.url/g, "'" + opts.url + "'")`: the pattern
is a literal (its dots are escaped). -/
def replaceMetaUrl (code u : String) : String :=
  replaceAll ["import.meta.url"] (fun _ => singleQuote ++ u ++ singleQuote) code

/-- The value returned by `transformModule(code, opts)`: default `url`/`from`
into each other, rewrite imports, then substitute `import.meta.url` when a
url is known. -/
def transformModuleCode (h : Host) (code : String) (opts : Opts) : Except Err String :=
  match resolveImports h code (defaultUrlFrom opts) with
  | .error e => .error e
  | .ok code1 =>
    .ok (if truthy (defaultUrlFrom opts).url
         then replaceMetaUrl code1 ((defaultUrlFrom opts).url.getD "")
         else code1)

/-- The state of the caller-supplied options record after
`transformModule(code, opts)` returns: the defaulting step assigns into the
caller's object in place, and nothing else in the call writes to it
(`resolveImports` spreads it into a fresh object). -/
def transformModulePost (opts : Opts) : Opts := defaultUrlFrom opts

/-! ### Spec-side companion definitions -/

/-- Modelled from the spec: the fallback candidate list of resolution step 4,
"every combination of {no suffix, an implicit `/index` suffix} x {each
configured extension}, in that nested order (no-suffix extensions tried
before index-extensions)". -/
def fallbackCandidates (id : String) (exts : List String) : List String :=
  exts.map (fun e => id ++ e) ++ exts.map (fun e => id ++ "/index" ++ e)

/-- Modelled from the spec: scan a flat candidate list in order, "stopping at
first success"; soft misses continue, hard errors propagate. -/
def scanCandidates (h : Host) (fr : String) (conds : List String) :
    List String → Except Err (Option String)
  | [] => .ok none
  | c :: rest =>
    match _tryModuleResolve h c fr conds with
    | .error e => .error e
    | .ok (some r) => .ok (some r)
    | .ok none => scanCandidates h fr conds rest

/-- Modelled from the spec: `_resolve` with the nested fallback loops
replaced by the flat candidate scan in the spec's claimed order; everything
else identical to `_resolve`. -/
def _resolveSpecOrder (h : Host) (id : String) (opts : Opts) : Except Err String :=
  if hasProtocol id then .ok id
  else if id ∈ BUILTIN_MODULES then .ok ("node:" ++ id)
  else
    match _tryModuleResolve h id (effectiveFrom h opts) (effectiveConds opts) with
    | .error e => .error e
    | .ok (some r) => finalize h r
    | .ok none =>
      match scanCandidates h (effectiveFrom h opts) (effectiveConds opts)
          (fallbackCandidates id (effectiveExts opts)) with
      | .error e => .error e
      | .ok (some r) => finalize h r
      | .ok none =>
        .error { message := "Cannot find module " ++ id ++ " imported from "
                              ++ effectiveFrom h opts
               , code := "ERR_MODULE_NOT_FOUND" }

/-! ### Concrete hosts and sources used by witnesses and counterexamples -/

/-- A host on which every resolution attempt misses softly (nothing on disk
matches); canonicalization primitives are the identity. -/
def hostMiss : Host :=
  { moduleResolve := fun _ _ _ => .error { message := "nf", code := "ERR_MODULE_NOT_FOUND" }
  , fileURLToPathFn := fun s => s
  , realpathSyncFn := fun s => .ok s
  , pathToFileURLFn := fun s => s
  , defaultFrom := "file:///cwd" }

/-- A host on which every resolution attempt fails hard with a
non-soft-miss code. -/
def hostHard : Host :=
  { moduleResolve := fun _ _ _ => .error { message := "denied", code := "EACCES" }
  , fileURLToPathFn := fun s => s
  , realpathSyncFn := fun s => .ok s
  , pathToFileURLFn := fun s => s
  , defaultFrom := "file:///cwd" }

/-- A host on which every specifier `id` resolves to `file:///id.mjs`;
canonicalization primitives are the identity. -/
def hostOkMjs : Host :=
  { moduleResolve := fun id _ _ => .ok ("file:///" ++ id ++ ".mjs")
  , fileURLToPathFn := fun s => s
  , realpathSyncFn := fun s => .ok s
  , pathToFileURLFn := fun s => s
  , defaultFrom := "file:///cwd" }

/-- Source text whose two distinct specifiers overlap: "a" is a proper
substring of "ab". -/
def srcTwoSpecifiers : String := "import \"a\"\nimport \"ab\"\n"

/-- Source text with one import of "a" and two imports of "ab". -/
def srcDupLonger : String := "import \"a\"\nimport \"ab\"\nimport \"ab\"\n"

/-- Source text with two imports of the same specifier "dep" and no other
specifier. -/
def srcDupSimple : String := "import \"dep\"\nimport \"dep\"\n"

/-- Source text with a single import of "x". -/
def srcSingleImport : String := "import \"x\"\n"

end Mlly

deriving instance DecidableEq for Except

namespace Mlly

/-! ### Helper lemmas -/

/-- The inner fallback loop for one suffix part equals the flat scan of the
corresponding candidate slice. -/
lemma tryExtList_eq_scan (h : Host) (id fr : String) (conds : List String) (pfx : String) :
    ∀ exts : List String,
      tryExtList h id fr conds pfx exts
        = scanCandidates h fr conds (exts.map (fun e => id ++ pfx ++ e))
  | [] => rfl
  | ext :: rest => by
    simp only [tryExtList, List.map_cons, scanCandidates]
    cases _tryModuleResolve h (id ++ pfx ++ ext) fr conds with
    | error e => rfl
    | ok r =>
      cases r with
      | none => exact tryExtList_eq_scan h id fr conds pfx rest
      | some u => rfl

/-- The flat scan distributes over list append: the second slice only runs if
the first slice ends in a soft miss. -/
lemma scanCandidates_append (h : Host) (fr : String) (conds : List String) :
    ∀ l1 l2 : List String,
      scanCandidates h fr conds (l1 ++ l2)
        = match scanCandidates h fr conds l1 with
          | .ok none => scanCandidates h fr conds l2
          | r => r
  | [], l2 => rfl
  | c :: rest, l2 => by
    simp only [List.cons_append, scanCandidates]
    cases _tryModuleResolve h c fr conds with
    | error e => rfl
    | ok r =>
      cases r with
      | none => exact scanCandidates_append h fr conds rest l2
      | some u => rfl

/-- The source's nested fallback loops over `['', '/index']` equal the flat
scan of the spec's candidate list. -/
lemma tryPrefixList_pair_eq (h : Host) (id fr : String) (conds exts : List String) :
    tryPrefixList h id fr conds exts ["", "/index"]
      = scanCandidates h fr conds (fallbackCandidates id exts) := by
  have hmap : (fun e => id ++ "" ++ e) = (fun e : String => id ++ e) := by
    funext e
    rw [String.append_empty]
  simp only [tryPrefixList, fallbackCandidates, scanCandidates_append,
             tryExtList_eq_scan, hmap]
  cases scanCandidates h fr conds (exts.map fun e => id ++ e) with
  | error e => rfl
  | ok r =>
    cases r with
    | some u => rfl
    | none =>
      cases scanCandidates h fr conds (exts.map fun e => id ++ "/index" ++ e) with
      | error e => rfl
      | ok r2 =>
        cases r2 with
        | some u => rfl
        | none => rfl

/-- A flat scan over candidates that all soft-miss ends in a soft miss. -/
lemma scanCandidates_all_none (h : Host) (fr : String) (conds : List String) :
    ∀ l : List String,
      (∀ c ∈ l, _tryModuleResolve h c fr conds = .ok none) →
      scanCandidates h fr conds l = .ok none
  | [], _ => rfl
  | c :: rest, hall => by
    have hc := hall c (List.mem_cons_self ..)
    simp only [scanCandidates, hc]
    exact scanCandidates_all_none h fr conds rest
      (fun x hx => hall x (List.mem_cons_of_mem _ hx))

/-- The Set-insertion dedup produces a duplicate-free list avoiding `seen`. -/
lemma dedupAux_sound :
    ∀ (l seen : List String),
      (dedupAux seen l).Nodup ∧ ∀ x ∈ dedupAux seen l, x ∉ seen := by
  intro l
  induction l with
  | nil => exact fun seen => ⟨List.nodup_nil, by simp [dedupAux]⟩
  | cons a as ih =>
    intro seen
    by_cases ha : a ∈ seen
    · simpa [dedupAux, ha] using ih seen
    · have ihx := ih (a :: seen)
      simp only [dedupAux, if_neg ha]
      constructor
      · refine List.nodup_cons.mpr ⟨?_, ihx.1⟩
        intro hmem
        exact (ihx.2 a hmem) (List.mem_cons_self ..)
      · intro y hy
        rcases List.mem_cons.mp hy with rfl | hy2
        · exact ha
        · intro hseen
          exact (ihx.2 y hy2) (List.mem_cons_of_mem _ hseen)

/-- Membership is preserved into the dedup, provided the element is not
already recorded. -/
lemma mem_dedupAux :
    ∀ (l seen : List String) (x : String), x ∈ l → x ∉ seen → x ∈ dedupAux seen l := by
  intro l
  induction l with
  | nil => intro seen x hx; cases hx
  | cons a as ih =>
    intro seen x hmem hnot
    rcases List.mem_cons.mp hmem with rfl | h2
    · simp only [dedupAux, if_neg hnot]
      exact List.mem_cons_self ..
    · by_cases ha : a ∈ seen
      · simp only [dedupAux, if_pos ha]
        exact ih seen x h2 hnot
      · simp only [dedupAux, if_neg ha]
        by_cases hxa : x = a
        · subst hxa
          exact List.mem_cons_self ..
        · refine List.mem_cons_of_mem _ (ih (a :: seen) x h2 ?_)
          intro hcon
          rcases List.mem_cons.mp hcon with h | h
          · exact hxa h
          · exact hnot h

/-- Everything in the dedup came from the input list. -/
lemma mem_of_mem_dedupAux :
    ∀ (l seen : List String) (x : String), x ∈ dedupAux seen l → x ∈ l := by
  intro l
  induction l with
  | nil => intro seen x hx; simp [dedupAux] at hx
  | cons a as ih =>
    intro seen x hx
    by_cases ha : a ∈ seen
    · simp only [dedupAux, if_pos ha] at hx
      exact List.mem_cons_of_mem _ (ih seen x hx)
    · simp only [dedupAux, if_neg ha] at hx
      rcases List.mem_cons.mp hx with rfl | h2
      · exact List.mem_cons_self ..
      · exact List.mem_cons_of_mem _ (ih (a :: seen) x h2)

/-- If some specifier in the list fails to resolve, the sequentialized
`Promise.all` fails with the error of (the first) such specifier. -/
lemma resolveAll_error_of_exists (h : Host) (ropts : Opts) :
    ∀ ids : List String,
      (∃ id ∈ ids, ∃ e : Err, resolve h id ropts = .error e) →
      ∃ id ∈ ids, ∃ e : Err,
        resolve h id ropts = .error e ∧ resolveAll h ropts ids = .error e := by
  intro ids
  induction ids with
  | nil =>
    rintro ⟨id, hmem, _⟩
    cases hmem
  | cons a rest ih =>
    rintro ⟨id, hmem, e, he⟩
    cases hra : resolve h a ropts with
    | error ea =>
      refine ⟨a, List.mem_cons_self .., ea, hra, ?_⟩
      simp only [resolveAll, hra]
    | ok u =>
      have hid : id ∈ rest := by
        rcases List.mem_cons.mp hmem with rfl | h2
        · rw [hra] at he
          cases he
        · exact h2
      obtain ⟨id2, hmem2, e2, he2, hall⟩ := ih ⟨id, hid, e, he⟩
      refine ⟨id2, List.mem_cons_of_mem _ hmem2, e2, he2, ?_⟩
      simp only [resolveAll, hra, hall]

/-! ### Claim theorems -/

/-- C1, counterexample: the claim asserts that a specifier with an explicit
`file:` scheme is returned unchanged, but `_resolve`'s protocol test
`/(node|data|http|https):/` does not include `file:`, so a `file:` URL falls
through to host resolution; on a host where nothing matches, `_resolve`
throws `ERR_MODULE_NOT_FOUND` instead of returning the specifier. -/
theorem c1_counterexample :
    ¬ (_resolve hostMiss "file:///missing.mjs" {} = .ok "file:///missing.mjs") := by
  intro hcontra
  have h1 : _resolve hostMiss "file:///missing.mjs" {} =
      .error { message := "Cannot find module file:///missing.mjs imported from file:///cwd"
             , code := "ERR_MODULE_NOT_FOUND" } := rfl
  rw [h1] at hcontra
  cases hcontra

/-- C1, amended: for every specifier matching the protocol test
`/(node|data|http|https):/`, `resolveSync` and `resolve` return it unchanged,
under any host and context; in particular resolving the result again yields
the same value (the final conjunct applied to the returned specifier). -/
theorem c1_proto_passthrough (h : Host) (opts : Opts) (id : String)
    (hp : hasProtocol id = true) :
    resolveSync h id opts = .ok id ∧ resolve h id opts = .ok id ∧
      ∀ (h2 : Host) (opts2 : Opts), resolveSync h2 id opts2 = .ok id := by
  have key : ∀ (h2 : Host) (opts2 : Opts), resolveSync h2 id opts2 = .ok id := by
    intro h2 opts2
    unfold resolveSync _resolve
    rw [if_pos hp]
  refine ⟨key h opts, ?_, key⟩
  unfold resolve
  rw [key h opts]

/-- C1, witness for the amended theorem at the network specifier
`https://example.com/mod.js`. -/
theorem c1_proto_passthrough_witness :
    resolveSync hostMiss "https://example.com/mod.js" {} = .ok "https://example.com/mod.js" :=
  (c1_proto_passthrough hostMiss {} "https://example.com/mod.js" (by decide)).1

/-- C2: a source whose distinct specifier set is `["a", "ab"]` (with "a" a
proper substring of "ab") is rewritten by the single global alternation so
that the leftmost-first match replaces the "a" inside the occurrence of "ab",
yielding `file:///a.mjs` followed by a stray `b` instead of `ab`'s own
resolved URL `file:///ab.mjs`. -/
theorem c2_substring_substitution :
    extractImports srcTwoSpecifiers = ["a", "ab"] ∧
    ("a" : String) ≠ "ab" ∧ ("a" : String).data <:+: ("ab" : String).data ∧
    resolve hostOkMjs "a" ({} : Opts) = .ok "file:///a.mjs" ∧
    resolve hostOkMjs "ab" ({} : Opts) = .ok "file:///ab.mjs" ∧
    resolveImports hostOkMjs srcTwoSpecifiers {} =
      .ok "import \"file:///a.mjs\"\nimport \"file:///a.mjsb\"\n" ∧
    "import \"file:///a.mjs\"\nimport \"file:///a.mjsb\"\n" ≠
      "import \"file:///a.mjs\"\nimport \"file:///ab.mjs\"\n" := by
  refine ⟨rfl, by decide, ⟨[], ['b'], rfl⟩, by decide, by decide, by decide, by decide⟩

/-- C3, counterexample: when only `from` is supplied, `transformModule`
writes `opts.url = opts.from` into the caller's options record, so the
record after the call differs from the record before it. -/
theorem c3_counterexample :
    transformModulePost { from' := some "file:///base/mod.mjs" } ≠
      ({ from' := some "file:///base/mod.mjs" } : Opts) := by
  decide

/-- C3, amended: the defaulting step is the only write into the caller's
options record, so whenever `url` and `from` are both (truthily) supplied or
both absent, `transformModule` leaves the caller's record unchanged.  The
pure resolvers (`resolveSync`, `resolve`, `resolvePath`, `resolveImports`)
only read the record or spread it into a fresh object. -/
theorem c3_no_mutation_when_balanced (opts : Opts)
    (hbal : truthy opts.url = truthy opts.from') :
    transformModulePost opts = opts := by
  unfold transformModulePost defaultUrlFrom
  rw [hbal]
  cases htr : truthy opts.from' <;> simp

/-- C3, witness for the amended theorem: both `url` and `from` supplied. -/
theorem c3_no_mutation_witness :
    transformModulePost { from' := some "file:///a.mjs", url := some "file:///b.mjs" } =
      { from' := some "file:///a.mjs", url := some "file:///b.mjs" } :=
  c3_no_mutation_when_balanced _ (by decide)

/-- C4: `_resolve` equals the spec-side variant in which the nested
`['', '/index']` x extensions loops are replaced by one flat scan of the
candidate list `exts.map (id ++ .) ++ exts.map (id ++ "/index" ++ .)` that
stops at the first success -- i.e. on a soft miss of the literal attempt the
fallback tries exactly these candidates in exactly this order. -/
theorem c4_fallback_order (h : Host) (id : String) (opts : Opts) :
    _resolve h id opts = _resolveSpecOrder h id opts := by
  unfold _resolve _resolveSpecOrder
  rw [tryPrefixList_pair_eq]

/-- C5: when the host resolver throws, `_tryModuleResolve` absorbs the error
as a soft miss exactly when its code is in `NOT_FOUND_ERRORS`
(`ERR_MODULE_NOT_FOUND`, `ERR_UNSUPPORTED_DIR_IMPORT`, `MODULE_NOT_FOUND`)
and otherwise rethrows it unchanged; consequently a hard failure of the
literal attempt propagates unchanged out of `_resolve`. -/
theorem c5_soft_miss_classification (h : Host) (id fr : String)
    (conds : List String) (e : Err)
    (hmr : h.moduleResolve id fr conds = .error e) :
    (_tryModuleResolve h id fr conds =
        if e.code ∈ NOT_FOUND_ERRORS then .ok none else .error e) ∧
    (∀ opts : Opts, hasProtocol id = false → id ∉ BUILTIN_MODULES →
        fr = effectiveFrom h opts → conds = effectiveConds opts →
        e.code ∉ NOT_FOUND_ERRORS →
        _resolve h id opts = .error e) := by
  have h1 : _tryModuleResolve h id fr conds =
      if e.code ∈ NOT_FOUND_ERRORS then .ok none else .error e := by
    unfold _tryModuleResolve
    rw [hmr]
  refine ⟨h1, ?_⟩
  intro opts hp hb hfr hconds hcode
  subst hfr
  subst hconds
  unfold _resolve
  rw [if_neg (by simp [hp]), if_neg hb, h1, if_neg hcode]

/-- C5, witness: a hard `EACCES` failure of the host resolver propagates
unchanged out of `_resolve`. -/
theorem c5_witness :
    _resolve hostHard "somepkg" {} = .error { message := "denied", code := "EACCES" } :=
  (c5_soft_miss_classification hostHard "somepkg" (effectiveFrom hostHard {})
      (effectiveConds {}) { message := "denied", code := "EACCES" } rfl).2
    {} (by decide) (by decide) rfl rfl (by decide)

/-- C6: when the literal attempt and every fallback candidate soft-miss,
`_resolve` fails with code `ERR_MODULE_NOT_FOUND` and a message containing
both the original specifier and the effective base location. -/
theorem c6_not_found (h : Host) (id : String) (opts : Opts)
    (hp : hasProtocol id = false) (hb : id ∉ BUILTIN_MODULES)
    (hlit : _tryModuleResolve h id (effectiveFrom h opts) (effectiveConds opts) = .ok none)
    (hall : ∀ c ∈ fallbackCandidates id (effectiveExts opts),
        _tryModuleResolve h c (effectiveFrom h opts) (effectiveConds opts) = .ok none) :
    ∃ e : Err, _resolve h id opts = .error e ∧ e.code = "ERR_MODULE_NOT_FOUND" ∧
      id.data <:+: e.message.data ∧ (effectiveFrom h opts).data <:+: e.message.data := by
  have hloop : tryPrefixList h id (effectiveFrom h opts) (effectiveConds opts)
      (effectiveExts opts) ["", "/index"] = .ok none := by
    rw [tryPrefixList_pair_eq]
    exact scanCandidates_all_none _ _ _ _ hall
  have hres : _resolve h id opts = .error
      { message := "Cannot find module " ++ id ++ " imported from " ++ effectiveFrom h opts
      , code := "ERR_MODULE_NOT_FOUND" } := by
    unfold _resolve
    rw [if_neg (by simp [hp]), if_neg hb, hlit, hloop]
  refine ⟨_, hres, rfl, ?_, ?_⟩
  · exact ⟨("Cannot find module " : String).data,
           (" imported from " ++ effectiveFrom h opts).data,
           by simp [List.append_assoc]⟩
  · exact ⟨("Cannot find module " : String).data ++ id.data ++ (" imported from " : String).data,
           [],
           by simp [List.append_assoc]⟩

/-- C6, witness on the all-missing host at specifier "mypkg". -/
theorem c6_witness :
    ∃ e : Err, _resolve hostMiss "mypkg" {} = .error e ∧
      e.code = "ERR_MODULE_NOT_FOUND" ∧
      ("mypkg" : String).data <:+: e.message.data ∧
      (effectiveFrom hostMiss {}).data <:+: e.message.data :=
  c6_not_found hostMiss "mypkg" {} (by decide) (by decide) rfl (by decide)

/-- C7: if any distinct extracted specifier fails to resolve, the whole
rewrite fails with (a) failing specifier's error: `resolveImports` returns
that error, never returns any (partially rewritten) source text, and
`transformModule` propagates the same error -- the substitution step never
runs. -/
theorem c7_resolution_failure_aborts (h : Host) (code : String) (opts : Opts)
    (hf : ∃ id ∈ dedupFirst (extractImports code), ∃ e : Err,
        resolve h id { opts with from' := opts.url } = .error e) :
    ∃ id ∈ dedupFirst (extractImports code), ∃ e : Err,
      resolve h id { opts with from' := opts.url } = .error e ∧
      resolveImports h code opts = .error e ∧
      (∀ s : String, resolveImports h code opts ≠ .ok s) ∧
      (∀ opts0 : Opts, defaultUrlFrom opts0 = opts →
          transformModuleCode h code opts0 = .error e) := by
  obtain ⟨id0, hmem0, e0, he0⟩ := hf
  obtain ⟨id1, hmem1, e1, he1, hall⟩ :=
    resolveAll_error_of_exists h { opts with from' := opts.url }
      (dedupFirst (extractImports code)) ⟨id0, hmem0, e0, he0⟩
  have hne : (extractImports code).isEmpty = false := by
    have hmm : id1 ∈ extractImports code := mem_of_mem_dedupAux _ _ _ hmem1
    cases hx : extractImports code with
    | nil => rw [hx] at hmm; cases hmm
    | cons a l => rfl
  have hri : resolveImports h code opts = .error e1 := by
    unfold resolveImports resolveImportsWith
    rw [if_neg (by simp [hne]), hall]
  refine ⟨id1, hmem1, e1, he1, hri, ?_, ?_⟩
  · intro s hcontra
    rw [hri] at hcontra
    cases hcontra
  · intro opts0 hdef
    unfold transformModuleCode
    rw [hdef, hri]

/-- C7, witness: on a host failing hard with `EACCES`, rewriting a source
with one import aborts with the wrapped error of that specifier. -/
theorem c7_witness :
    ∃ id ∈ dedupFirst (extractImports srcSingleImport), ∃ e : Err,
      resolve hostHard id { ({} : Opts) with from' := (({} : Opts)).url } = .error e ∧
      resolveImports hostHard srcSingleImport {} = .error e ∧
      (∀ s : String, resolveImports hostHard srcSingleImport {} ≠ .ok s) ∧
      (∀ opts0 : Opts, defaultUrlFrom opts0 = {} →
          transformModuleCode hostHard srcSingleImport opts0 = .error e) :=
  c7_resolution_failure_aborts hostHard srcSingleImport {}
    ⟨"x", by decide, { message := "Error: denied", code := "EACCES" }, rfl⟩

/-- C8, counterexample: in a source importing "a" once and "ab" twice, the
two occurrences of "ab" are NOT replaced with `ab`'s resolved URL
`file:///ab.mjs` (the alternation's earlier pattern "a" matches inside
them); the resolved URL of "ab" does not occur in the output at all. -/
theorem c8_counterexample :
    extractImports srcDupLonger = ["a", "ab", "ab"] ∧
    resolve hostOkMjs "ab" ({} : Opts) = .ok "file:///ab.mjs" ∧
    resolveImports hostOkMjs srcDupLonger {} =
      .ok "import \"file:///a.mjs\"\nimport \"file:///a.mjsb\"\nimport \"file:///a.mjsb\"\n" ∧
    strHas "import \"file:///a.mjs\"\nimport \"file:///a.mjsb\"\nimport \"file:///a.mjsb\"\n"
      "file:///ab.mjs" = false := by
  refine ⟨rfl, by decide, by decide, rfl⟩

/-- C8, amended: duplicates always collapse to one entry of the distinct
list -- the list driving the per-specifier resolution calls is duplicate-free
and contains a twice-occurring specifier exactly once (so exactly one
resolution call is issued for it); and in the absence of interfering
specifiers both occurrences are replaced with the same resolved URL
(verified on a representative two-occurrence source). -/
theorem c8_dedup_single_call :
    (∀ (code : String) (id : String), 2 ≤ (extractImports code).count id →
        (dedupFirst (extractImports code)).Nodup ∧
        (dedupFirst (extractImports code)).count id = 1) ∧
    resolveImports hostOkMjs srcDupSimple {} =
      .ok "import \"file:///dep.mjs\"\nimport \"file:///dep.mjs\"\n" := by
  constructor
  · intro code id h2
    have hmem : id ∈ extractImports code :=
      List.count_pos_iff.mp (lt_of_lt_of_le (by omega) h2)
    have hsound := dedupAux_sound (extractImports code) []
    have hmemd : id ∈ dedupFirst (extractImports code) :=
      mem_dedupAux _ _ _ hmem (by simp)
    exact ⟨hsound.1, List.count_eq_one_of_mem hsound.1 hmemd⟩
  · decide

/-- C8, witness for the universal part of the amended theorem, on the
representative duplicated source. -/
theorem c8_dedup_single_call_witness :
    (dedupFirst (extractImports srcDupSimple)).Nodup ∧
    (dedupFirst (extractImports srcDupSimple)).count "dep" = 1 :=
  c8_dedup_single_call.1 srcDupSimple "dep" (by decide)

/-- C9: every builtin module name resolves to its `node:`-scheme identifier,
and the result is identical under every host -- in particular no host
primitive (module resolution, stat/realpath, URL conversion) can influence
it, i.e. no filesystem access is performed. -/
theorem c9_builtin_no_fs (b : String) (hb : b ∈ BUILTIN_MODULES)
    (h h2 : Host) (opts opts2 : Opts) :
    _resolve h b opts = .ok ("node:" ++ b) ∧
    _resolve h b opts = _resolve h2 b opts2 := by
  have hp : hasProtocol b = false := by
    have hall : ∀ x ∈ BUILTIN_MODULES, hasProtocol x = false := by decide
    exact hall b hb
  have key : ∀ (h3 : Host) (opts3 : Opts), _resolve h3 b opts3 = .ok ("node:" ++ b) := by
    intro h3 opts3
    unfold _resolve
    rw [if_neg (by simp [hp]), if_pos hb]
  exact ⟨key h opts, (key h opts).trans (key h2 opts2).symm⟩

/-- C9, witness at the builtin "fs", under two different hosts. -/
theorem c9_witness :
    _resolve hostMiss "fs" {} = .ok "node:fs" ∧
    _resolve hostMiss "fs" {} = _resolve hostHard "fs" {} :=
  c9_builtin_no_fs "fs" (by decide) hostMiss hostHard {} {}

/-- C10: when `transformModule` receives both a (truthy) `url` and a
differing (truthy) `from`, the transformation is independent of `from`
(replacing it with any other truthy value gives the same result) and equals
the transformation in which the resolution origin is `url` itself --
`resolveImports` overrides `from` with `opts.url` before resolving. -/
theorem c10_url_overrides_from (h : Host) (code : String) (u f f2 : String)
    (conds exts : Option (List String))
    (hu : u ≠ "") (hf : f ≠ "") (hf2 : f2 ≠ "") (_hdiff : f ≠ u) :
    transformModuleCode h code
        { from' := some f, url := some u, conditions := conds, extensions := exts } =
      transformModuleCode h code
        { from' := some f2, url := some u, conditions := conds, extensions := exts } ∧
    transformModuleCode h code
        { from' := some f, url := some u, conditions := conds, extensions := exts } =
      transformModuleCode h code
        { from' := some u, url := some u, conditions := conds, extensions := exts } := by
  have hdef : ∀ g : String, g ≠ "" →
      defaultUrlFrom { from' := some g, url := some u, conditions := conds, extensions := exts } =
        { from' := some g, url := some u, conditions := conds, extensions := exts } := by
    intro g hg
    unfold defaultUrlFrom truthy
    simp [hu, hg]
  have key : ∀ g : String, g ≠ "" →
      transformModuleCode h code
          { from' := some g, url := some u, conditions := conds, extensions := exts } =
        transformModuleCode h code
          { from' := some u, url := some u, conditions := conds, extensions := exts } := by
    intro g hg
    unfold transformModuleCode
    rw [hdef g hg, hdef u hu]
    rfl
  exact ⟨(key f hf).trans (key f2 hf2).symm, key f hf⟩

/-- C10, witness at two different `from` values with the same `url`. -/
theorem c10_witness :
    transformModuleCode hostOkMjs "export const x = 1\n"
        { from' := some "file:///f1.mjs", url := some "file:///u.mjs" } =
      transformModuleCode hostOkMjs "export const x = 1\n"
        { from' := some "file:///f2.mjs", url := some "file:///u.mjs" } :=
  (c10_url_overrides_from hostOkMjs "export const x = 1\n"
      "file:///u.mjs" "file:///f1.mjs" "file:///f2.mjs" none none
      (by decide) (by decide) (by decide) (by decide)).1

end Mlly

